import Mathlib

/-!
Shallow embedding of the Birthmark registry pallet
(src/packages/registry/pallets/birthmark/src/lib.rs).

Byte strings (Rust `Vec<u8>`) are modelled as `List Nat`; the machine-width
bounds (`u8`, `u16`, `u32`, `u64`) are made explicit exactly where the source
relies on them (the `u16::MAX` guard in authority registration and the
`saturating_add` on the record counter).  Substrate storage maps are modelled
as association lists where an insert prepends the new entry and a lookup takes
the newest matching entry; the pallet only ever inserts a key it has just
checked to be absent, so this coincides with map semantics.  Fallible
dispatchables return `Except`; the surrounding ledger's transactional rollback
of a failed dispatch (relied upon by the pallet for batch atomicity, per the
`Note: This is an atomic operation` comment on `submit_image_batch`) is
modelled by the `dispatch_*` wrappers that return the pre-call state together
with the error.
-/

namespace Birthmark

/-- Byte strings (Rust `Vec<u8>` / slices); each element is a `u8` value. -/
abbrev Bytes := List Nat

/-- Submission type for image records (lib.rs lines 65-69). -/
inductive SubmissionType where
  | Camera
  | Software
deriving DecidableEq

/-- Image authentication record stored on-chain (lib.rs lines 73-93). -/
structure ImageRecord where
  image_hash : Bytes
  submission_type : SubmissionType
  modification_level : Nat
  parent_image_hash : Option Bytes
  authority_id : Nat
  timestamp : Nat
  block_number : Nat
deriving DecidableEq

/-- Errors of the pallet (lib.rs lines 178-200). -/
inductive PalletError where
  | InvalidHashLength
  | InvalidModificationLevel
  | AuthorityNameTooLong
  | HashAlreadyExists
  | ParentHashNotFound
  | InvalidParentHashLength
  | EmptyBatch
  | BatchTooLarge
  | AuthorityNotFound
  | TooManyAuthorities
deriving DecidableEq

/-- Events deposited by the pallet (lib.rs lines 157-175). -/
inductive Event where
  | ImageRecordSubmitted (image_hash : Bytes) (authority_id : Nat) (modification_level : Nat)
  | ImageBatchSubmitted (count : Nat)
  | AuthorityRegistered (authority_id : Nat) (authority_name : Bytes)
deriving DecidableEq

/-- The pallet's storage (lib.rs lines 104-136) together with the events
deposited so far.  `imageRecords` models the `ImageRecords` storage map,
`authorityRegistry` the `AuthorityRegistry` map (id to name), and the two
scalars model `NextAuthorityId` and `TotalRecords`. -/
structure PalletState where
  imageRecords : List (Bytes × ImageRecord)
  authorityRegistry : List (Nat × Bytes)
  nextAuthorityId : Nat
  totalRecords : Nat
  events : List Event
deriving DecidableEq

/-- Map lookup: value of the newest entry for key `k` (StorageMap `get`). -/
def storageGet (m : List (Bytes × ImageRecord)) (k : Bytes) : Option ImageRecord :=
  (m.find? (fun p => p.1 == k)).map Prod.snd

/-- Map membership test (StorageMap `contains_key`). -/
def contains_key (m : List (Bytes × ImageRecord)) (k : Bytes) : Bool :=
  m.any (fun p => p.1 == k)

/-- Genesis state (lib.rs lines 146-154): zero records, zero authorities. -/
def genesisState : PalletState where
  imageRecords := []
  authorityRegistry := []
  nextAuthorityId := 0
  totalRecords := 0
  events := []

/-- The value of a single ASCII hex digit (0-9, A-F, a-f), as recognised by
`u8::from_str_radix(_, 16)` in the source. -/
def hexDigitVal (c : Nat) : Option Nat :=
  if 48 ≤ c ∧ c ≤ 57 then some (c - 48)
  else if 65 ≤ c ∧ c ≤ 70 then some (c - 55)
  else if 97 ≤ c ∧ c ≤ 102 then some (c - 87)
  else none

/-- Decoding of one two-character group, as done by
`u8::from_str_radix(core::str::from_utf8(byte_str)?, 16)` on a two-byte slice
(lib.rs lines 442-448).  `from_str_radix` accepts an optional leading plus
sign (ASCII 43) followed by digits, so a group of the shape plus-then-digit
also decodes; a two-byte slice whose bytes are not both ASCII either fails the
UTF-8 check or contains no valid digit, and in both cases the source maps the
failure to `InvalidHashLength`, which `none` captures here. -/
def decodeHexPair (c1 c2 : Nat) : Option Nat :=
  if c1 = 43 then hexDigitVal c2
  else
    match hexDigitVal c1, hexDigitVal c2 with
    | some hi, some lo => some (16 * hi + lo)
    | _, _ => none

/-- The decoding loop of `parse_image_hash` over the 32 consecutive
two-character groups of a 64-character input (lib.rs lines 440-449). -/
def decodeHexBytes : Bytes → Option Bytes
  | [] => some []
  | [_] => none
  | c1 :: c2 :: rest =>
    match decodeHexPair c1 c2, decodeHexBytes rest with
    | some b, some bs => some (b :: bs)
    | _, _ => none

/-- Translation of `parse_image_hash` (lib.rs lines 430-454): a 32-byte input
is passed through unchanged, a 64-byte input is hex-decoded two characters at
a time, and every other length (and every decode failure) yields
`InvalidHashLength`. -/
def parse_image_hash (hash : Bytes) : Except PalletError Bytes :=
  if hash.length = 32 then .ok hash
  else if hash.length = 64 then
    match decodeHexBytes hash with
    | some out => .ok out
    | none => .error .InvalidHashLength
  else .error .InvalidHashLength

/-- Translation of `register_or_get_authority` (lib.rs lines 460-493),
parametrised by the runtime constant `MaxAuthorityIdLength` (100 in both the
runtime and the test configuration).  The length guard covers both the
`ensure!` and the `BoundedVec` conversion, which enforce the same bound.  The
`new_id < u16::MAX` guard makes the subsequent `saturating_add(1)` an exact
increment. -/
def register_or_get_authority (maxLen : Nat) (s : PalletState) (authority_name : Bytes) :
    Except PalletError (Nat × PalletState) :=
  if authority_name.length ≤ maxLen then
    match s.authorityRegistry.find? (fun p => p.2 == authority_name) with
    | some found => .ok (found.1, s)
    | none =>
      if s.nextAuthorityId < 65535 then
        .ok (s.nextAuthorityId,
          { s with
            authorityRegistry := (s.nextAuthorityId, authority_name) :: s.authorityRegistry
            nextAuthorityId := s.nextAuthorityId + 1
            events := s.events ++ [Event.AuthorityRegistered s.nextAuthorityId authority_name] })
      else .error .TooManyAuthorities
  else .error .AuthorityNameTooLong

/-- The parent-hash validation block shared verbatim by `submit_image_record`
(lib.rs lines 264-276) and the batch loop (lib.rs lines 383-392): a supplied
parent must parse and must already be a key of `ImageRecords`. -/
def validateParent (s : PalletState) : Option Bytes → Except PalletError (Option Bytes)
  | some parent =>
    match parse_image_hash parent with
    | .error e => .error e
    | .ok parsed_parent =>
      if contains_key s.imageRecords parsed_parent then .ok (some parsed_parent)
      else .error .ParentHashNotFound
  | none => .ok none

/-- The `saturating_add(1)` on the `u64` counter `TotalRecords`
(lib.rs lines 310-312 and 416). -/
def u64SaturatingSucc (n : Nat) : Nat :=
  min (n + 1) 18446744073709551615

/-- Translation of the dispatchable `submit_image_record`
(lib.rs lines 243-322).  `timestamp` and `block_number` stand for the values
read from `pallet_timestamp` and `frame_system` (already narrowed to `u32`).
The checks appear in source order: modification level, own-hash parse, parent
validation, duplicate check, authority registration, then the insert, the
counter increment and the event deposit. -/
def submit_image_record (maxLen : Nat) (s : PalletState) (timestamp block_number : Nat)
    (image_hash : Bytes) (submission_type : SubmissionType) (modification_level : Nat)
    (parent_image_hash : Option Bytes) (authority_name : Bytes) :
    Except PalletError PalletState :=
  if modification_level ≤ 2 then
    match parse_image_hash image_hash with
    | .error e => .error e
    | .ok binary_hash =>
      match validateParent s parent_image_hash with
      | .error e => .error e
      | .ok parent_hash =>
        if contains_key s.imageRecords binary_hash then .error .HashAlreadyExists
        else
          match register_or_get_authority maxLen s authority_name with
          | .error e => .error e
          | .ok (authority_id, s1) =>
            .ok { s1 with
              imageRecords :=
                (binary_hash,
                  { image_hash := binary_hash
                    submission_type := submission_type
                    modification_level := modification_level
                    parent_image_hash := parent_hash
                    authority_id := authority_id
                    timestamp := timestamp
                    block_number := block_number }) :: s1.imageRecords
              totalRecords := u64SaturatingSucc s1.totalRecords
              events := s1.events ++
                [Event.ImageRecordSubmitted binary_hash authority_id modification_level] }
  else .error .InvalidModificationLevel

/-- One item of a batch submission: the 5-tuple of `submit_image_batch`
(lib.rs lines 352-358). -/
structure BatchItem where
  image_hash : Bytes
  submission_type : SubmissionType
  modification_level : Nat
  parent_image_hash : Option Bytes
  authority_name : Bytes
deriving DecidableEq

/-- The body of the per-record loop of `submit_image_batch`
(lib.rs lines 375-417): the same pipeline as the single-record path, with the
batch-wide timestamp and block number, and no per-item submission event. -/
def batchItemStep (maxLen : Nat) (timestamp block_number : Nat) (s : PalletState)
    (item : BatchItem) : Except PalletError PalletState :=
  if item.modification_level ≤ 2 then
    match parse_image_hash item.image_hash with
    | .error e => .error e
    | .ok binary_hash =>
      match validateParent s item.parent_image_hash with
      | .error e => .error e
      | .ok parent_hash =>
        if contains_key s.imageRecords binary_hash then .error .HashAlreadyExists
        else
          match register_or_get_authority maxLen s item.authority_name with
          | .error e => .error e
          | .ok (authority_id, s1) =>
            .ok { s1 with
              imageRecords :=
                (binary_hash,
                  { image_hash := binary_hash
                    submission_type := item.submission_type
                    modification_level := item.modification_level
                    parent_image_hash := parent_hash
                    authority_id := authority_id
                    timestamp := timestamp
                    block_number := block_number }) :: s1.imageRecords
              totalRecords := u64SaturatingSucc s1.totalRecords }
  else .error .InvalidModificationLevel

/-- The `for` loop of `submit_image_batch`: items processed in input order,
each threading the state left by its predecessors, with the first failure
aborting the whole loop (the `?` and `ensure!` early returns). -/
def processBatchItems (maxLen : Nat) (timestamp block_number : Nat) (s : PalletState) :
    List BatchItem → Except PalletError PalletState
  | [] => .ok s
  | item :: rest =>
    match batchItemStep maxLen timestamp block_number s item with
    | .ok s1 => processBatchItems maxLen timestamp block_number s1 rest
    | .error e => .error e

/-- Translation of the dispatchable `submit_image_batch`
(lib.rs lines 350-422): the emptiness and size pre-checks, the single capture
of timestamp and block number for the whole batch, the per-item loop, and the
one `ImageBatchSubmitted` event carrying the item count. -/
def submit_image_batch (maxLen : Nat) (s : PalletState) (timestamp block_number : Nat)
    (records : List BatchItem) : Except PalletError PalletState :=
  if records.isEmpty then .error .EmptyBatch
  else if records.length ≤ 100 then
    match processBatchItems maxLen timestamp block_number s records with
    | .ok s1 => .ok { s1 with events := s1.events ++ [Event.ImageBatchSubmitted records.length] }
    | .error e => .error e
  else .error .BatchTooLarge

/-- Dispatch of `submit_image_record` as executed by the surrounding ledger:
a dispatchable that returns an error has every one of its storage writes
rolled back, so the post-dispatch state on failure is exactly the pre-call
state.  This transactional guarantee is external to the pallet (the pallet
performs no manual undo) and is the one the batch documentation relies on. -/
def dispatch_submit_image_record (maxLen : Nat) (s : PalletState)
    (timestamp block_number : Nat) (image_hash : Bytes) (submission_type : SubmissionType)
    (modification_level : Nat) (parent_image_hash : Option Bytes) (authority_name : Bytes) :
    PalletState × Option PalletError :=
  match submit_image_record maxLen s timestamp block_number image_hash submission_type
      modification_level parent_image_hash authority_name with
  | .ok s1 => (s1, none)
  | .error e => (s, some e)

/-- Dispatch of `submit_image_batch` under the same transactional rollback. -/
def dispatch_submit_image_batch (maxLen : Nat) (s : PalletState)
    (timestamp block_number : Nat) (records : List BatchItem) :
    PalletState × Option PalletError :=
  match submit_image_batch maxLen s timestamp block_number records with
  | .ok s1 => (s1, none)
  | .error e => (s, some e)

/-- Translation of the query `get_authority_name` (lib.rs lines 503-505). -/
def get_authority_name (s : PalletState) (id : Nat) : Option Bytes :=
  (s.authorityRegistry.find? (fun p => p.1 == id)).map Prod.snd

/-- Translation of the query `get_image_record` (lib.rs lines 498-500). -/
def get_image_record (s : PalletState) (hash : Bytes) : Option ImageRecord :=
  storageGet s.imageRecords hash

/-- Translation of the query `image_exists` (lib.rs lines 508-510). -/
def image_exists (s : PalletState) (hash : Bytes) : Bool :=
  contains_key s.imageRecords hash

/-- Translation of the query `get_total_records` (lib.rs lines 513-515). -/
def get_total_records (s : PalletState) : Nat :=
  s.totalRecords

/-- States reachable from genesis through the exposed dispatchables.  A failed
dispatch leaves the state unchanged (the `dispatch_*` wrappers return the
pre-call state), so closure under the successful runs suffices. -/
inductive Reachable (maxLen : Nat) : PalletState → Prop where
  | genesis : Reachable maxLen genesisState
  | submitRecord {s s' : PalletState} {ts bn ml : Nat} {ih : Bytes}
      {sty : SubmissionType} {p : Option Bytes} {an : Bytes} :
      Reachable maxLen s →
      submit_image_record maxLen s ts bn ih sty ml p an = .ok s' →
      Reachable maxLen s'
  | submitBatch {s s' : PalletState} {ts bn : Nat} {items : List BatchItem} :
      Reachable maxLen s →
      submit_image_batch maxLen s ts bn items = .ok s' →
      Reachable maxLen s'

/-- Equality of `Except` values is decidable when both components are. -/
instance exceptDecEq {ε α : Type} [DecidableEq ε] [DecidableEq α] : DecidableEq (Except ε α) :=
  fun a b =>
    match a, b with
    | .ok x, .ok y =>
      if h : x = y then .isTrue (by rw [h]) else .isFalse (fun hc => h (Except.ok.inj hc))
    | .error x, .error y =>
      if h : x = y then .isTrue (by rw [h]) else .isFalse (fun hc => h (Except.error.inj hc))
    | .ok _, .error _ => .isFalse (fun hc => Except.noConfusion hc)
    | .error _, .ok _ => .isFalse (fun hc => Except.noConfusion hc)

/-- The ASCII code of the lowercase hex digit for a value below 16.  This is a
spec-side definition: the spec speaks of the 64-character hexadecimal encoding
of a 32-byte value, and `hexEncode` below realises that encoding so that the
normalization round trip can be stated. -/
def hexCharOfDigit (d : Nat) : Nat :=
  if d < 10 then 48 + d else 87 + d

/-- Lowercase hexadecimal encoding of a byte string, two characters per byte
(spec-side, used to state the normalization-equivalence claim). -/
def hexEncode : Bytes → Bytes
  | [] => []
  | b :: bs => hexCharOfDigit (b / 16) :: hexCharOfDigit (b % 16) :: hexEncode bs

/-- Concrete 32-byte hash used by the witnesses. -/
def hashA : Bytes := List.replicate 32 7

/-- Second concrete 32-byte hash used by the witnesses. -/
def hashB : Bytes := List.replicate 32 9

/-- Concrete authority name used by the witnesses. -/
def nameA : Bytes := [65]

/-- The record stored for `hashA` when submitted from genesis with timestamp
12345 and block number 1. -/
def recordA : ImageRecord where
  image_hash := hashA
  submission_type := .Camera
  modification_level := 0
  parent_image_hash := none
  authority_id := 0
  timestamp := 12345
  block_number := 1

/-- Genesis after `register_or_get_authority` has assigned id 0 to `nameA`. -/
def authStateA : PalletState where
  imageRecords := []
  authorityRegistry := [(0, nameA)]
  nextAuthorityId := 1
  totalRecords := 0
  events := [Event.AuthorityRegistered 0 nameA]

/-- Genesis after a successful single-record submission of `hashA`. -/
def stateA : PalletState where
  imageRecords := [(hashA, recordA)]
  authorityRegistry := [(0, nameA)]
  nextAuthorityId := 1
  totalRecords := 1
  events := [Event.AuthorityRegistered 0 nameA, Event.ImageRecordSubmitted hashA 0 0]

/-- Genesis after one successful batch item inserting `hashA` (no per-item
submission event on the batch path). -/
def batchStateA : PalletState where
  imageRecords := [(hashA, recordA)]
  authorityRegistry := [(0, nameA)]
  nextAuthorityId := 1
  totalRecords := 1
  events := [Event.AuthorityRegistered 0 nameA]

/-- A valid batch item inserting `hashA`. -/
def itemGood : BatchItem where
  image_hash := hashA
  submission_type := .Camera
  modification_level := 0
  parent_image_hash := none
  authority_name := nameA

/-- A batch item with an out-of-range modification level. -/
def itemBad : BatchItem where
  image_hash := hashB
  submission_type := .Camera
  modification_level := 3
  parent_image_hash := none
  authority_name := nameA

/-- A batch item inserting `hashB` with `hashA` as its parent. -/
def itemChild : BatchItem where
  image_hash := hashB
  submission_type := .Camera
  modification_level := 1
  parent_image_hash := some hashA
  authority_name := nameA

/-- Recognizer for `ImageBatchSubmitted` events (used to count batch notifications). -/
def isBatchEvent : Event → Bool
  | .ImageBatchSubmitted _ => true
  | _ => false

/-- Recognizer for `ImageRecordSubmitted` events (used to show batches deposit no per-item notification). -/
def isRecordEvent : Event → Bool
  | .ImageRecordSubmitted _ _ _ => true
  | _ => false

/-- Genesis after a successful one-item batch inserting `hashA`. -/
def batchDoneA : PalletState where
  imageRecords := [(hashA, recordA)]
  authorityRegistry := [(0, nameA)]
  nextAuthorityId := 1
  totalRecords := 1
  events := [Event.AuthorityRegistered 0 nameA, Event.ImageBatchSubmitted 1]

/-- A batch item naming a parent that is never inserted. -/
def itemOrphan : BatchItem where
  image_hash := hashB
  submission_type := .Camera
  modification_level := 1
  parent_image_hash := some (List.replicate 32 11)
  authority_name := nameA

/-- Chain well-formation of the record store as an association list (newest entry first): keys are fresh at insertion time and the parent of each record is a key inserted strictly earlier (deeper in the list).  This is the invariant the pallet maintains by checking parent existence before inserting. -/
def storeChainOk : List (Bytes × ImageRecord) → Prop
  | [] => True
  | (k, r) :: rest =>
      (∀ q ∈ rest, q.1 ≠ k) ∧
      (∀ P, r.parent_image_hash = some P → ∃ q ∈ rest, q.1 = P) ∧
      storeChainOk rest

/-- The child-to-parent relation induced by the store: `chainRel m c p` holds when the record stored at key `c` names `p` as its parent. -/
def chainRel (m : List (Bytes × ImageRecord)) (child parent : Bytes) : Prop :=
  ∃ r, storageGet m child = some r ∧ r.parent_image_hash = some parent

/-- Density invariant of the authority dictionary: names exist exactly for ids below `nextAuthorityId`, the counter stays within the `u16` range, and distinct ids carry distinct names. -/
def RegistryInv (s : PalletState) : Prop :=
  (∀ id : Nat, (get_authority_name s id).isSome = true ↔ id < s.nextAuthorityId) ∧
  s.nextAuthorityId ≤ 65535 ∧
  (∀ (id1 id2 : Nat) (n1 n2 : Bytes), get_authority_name s id1 = some n1 →
    get_authority_name s id2 = some n2 → id1 ≠ id2 → n1 ≠ n2)

/-- A parse failure of `parse_image_hash` always carries `InvalidHashLength`. -/
theorem parse_image_hash_error {h : Bytes} {e : PalletError}
    (he : parse_image_hash h = .error e) : e = .InvalidHashLength := by
  unfold parse_image_hash at he
  split at he
  · exact absurd he (by simp)
  · split at he
    · split at he
      · exact absurd he (by simp)
      · exact (Except.error.inj he).symm
    · exact (Except.error.inj he).symm

/-- A 32-byte input passes through `parse_image_hash` unchanged. -/
theorem parse_image_hash_len32 {h : Bytes} (hl : h.length = 32) :
    parse_image_hash h = .ok h := by
  simp [parse_image_hash, hl]

/-- The hex encoding doubles the length. -/
theorem hexEncode_length (bs : Bytes) : (hexEncode bs).length = 2 * bs.length := by
  induction bs with
  | nil => rfl
  | cons b bs ih => simp [hexEncode, ih, Nat.mul_succ]

/-- Decoding a single encoded hex digit recovers the digit. -/
theorem hexDigitVal_hexCharOfDigit :
    ∀ d : Nat, d < 16 → hexDigitVal (hexCharOfDigit d) = some d := by
  decide

/-- An encoded hex digit is never the ASCII plus sign. -/
theorem hexCharOfDigit_ne_43 : ∀ d : Nat, d < 16 → hexCharOfDigit d ≠ 43 := by
  decide

/-- Decoding the two-character encoding of a byte recovers the byte. -/
theorem decodeHexPair_encode {b : Nat} (hb : b < 256) :
    decodeHexPair (hexCharOfDigit (b / 16)) (hexCharOfDigit (b % 16)) = some b := by
  have h1 : b / 16 < 16 := Nat.div_lt_of_lt_mul (by omega)
  have h2 : b % 16 < 16 := Nat.mod_lt b (by omega)
  unfold decodeHexPair
  rw [if_neg (hexCharOfDigit_ne_43 _ h1), hexDigitVal_hexCharOfDigit _ h1,
    hexDigitVal_hexCharOfDigit _ h2]
  exact congrArg some (Nat.div_add_mod b 16)

/-- Decoding the hex encoding of a byte string recovers the byte string. -/
theorem decodeHexBytes_encode : ∀ bs : Bytes, (∀ b ∈ bs, b < 256) →
    decodeHexBytes (hexEncode bs) = some bs := by
  intro bs hb
  induction bs with
  | nil => rfl
  | cons b bs ih =>
    have hb256 : b < 256 := hb b (List.mem_cons_self b bs)
    have hrest : ∀ x ∈ bs, x < 256 := fun x hx => hb x (List.mem_cons_of_mem b hx)
    simp [hexEncode, decodeHexBytes, decodeHexPair_encode hb256, ih hrest]

/-- A group whose first character is neither a hex digit nor a plus sign
fails to decode. -/
theorem decodeHexPair_none_left {c1 c2 : Nat} (h43 : c1 ≠ 43) (h : hexDigitVal c1 = none) :
    decodeHexPair c1 c2 = none := by
  simp [decodeHexPair, h43, h]

/-- A group whose second character is not a hex digit fails to decode. -/
theorem decodeHexPair_none_right {c1 c2 : Nat} (h : hexDigitVal c2 = none) :
    decodeHexPair c1 c2 = none := by
  by_cases h1 : c1 = 43 <;> simp [decodeHexPair, h1, h]

/-- A character that is neither a hex digit nor a plus sign anywhere in the
input makes the hex decoding loop fail. -/
theorem decodeHexBytes_badChar : ∀ (l : Bytes) (c : Nat), c ∈ l → hexDigitVal c = none →
    c ≠ 43 → decodeHexBytes l = none
  | [], c, hc, _, _ => absurd hc (List.not_mem_nil c)
  | [_], _, _, _, _ => rfl
  | c1 :: c2 :: rest, c, hc, hnone, h43 => by
    rcases List.mem_cons.mp hc with rfl | hc2
    · rw [decodeHexBytes, decodeHexPair_none_left h43 hnone]
    · rcases List.mem_cons.mp hc2 with rfl | hc3
      · rw [decodeHexBytes, decodeHexPair_none_right hnone]
      · rw [decodeHexBytes, decodeHexBytes_badChar rest c hc3 hnone h43]
        cases decodeHexPair c1 c2 <;> rfl

/-- C3 (amended): every 32-byte value parses to itself, and its 64-character
hex encoding parses to the same canonical key, so hex and binary submissions
of one hash are the same identity; every input of any other length fails with
`InvalidHashLength`; and a 64-byte input containing a character that is
neither a hex digit nor an ASCII plus sign fails with `InvalidHashLength`.
The plus-sign exception (inherited from `u8::from_str_radix`, which accepts
an optional leading plus inside each two-character group) is what the
counterexample exhibits against the claim as stated. -/
theorem c3_normalization_equivalence :
    (∀ B : Bytes, B.length = 32 → parse_image_hash B = .ok B) ∧
    (∀ B : Bytes, B.length = 32 → (∀ b ∈ B, b < 256) →
      (hexEncode B).length = 64 ∧ parse_image_hash (hexEncode B) = .ok B) ∧
    (∀ input : Bytes, input.length ≠ 32 → input.length ≠ 64 →
      parse_image_hash input = .error .InvalidHashLength) ∧
    (∀ (input : Bytes) (c : Nat), input.length = 64 → c ∈ input → hexDigitVal c = none →
      c ≠ 43 → parse_image_hash input = .error .InvalidHashLength) := by
  refine ⟨fun B hB => parse_image_hash_len32 hB, fun B hB hb => ?_, fun input h32 h64 => ?_,
    fun input c h64 hc hnone h43 => ?_⟩
  · have hlen : (hexEncode B).length = 64 := by rw [hexEncode_length, hB]
    refine ⟨hlen, ?_⟩
    rw [parse_image_hash, if_neg (by omega), if_pos hlen, decodeHexBytes_encode B hb]
  · rw [parse_image_hash, if_neg h32, if_neg h64]
  · rw [parse_image_hash, if_neg (by omega), if_pos h64,
      decodeHexBytes_badChar input c hc hnone h43]

/-- C3 counterexample: the 64-byte input made of 32 copies of the group
plus-then-lowercase-a contains the non-hex character 43, yet parses
successfully (to the 32 bytes of value 10) instead of failing with
`InvalidHashLength`. -/
theorem c3_counterexample :
    (List.replicate 32 ([43, 97] : List Nat)).flatten.length = 64 ∧
    43 ∈ (List.replicate 32 ([43, 97] : List Nat)).flatten ∧
    hexDigitVal 43 = none ∧
    parse_image_hash (List.replicate 32 ([43, 97] : List Nat)).flatten
      = .ok (List.replicate 32 10) :=
  ⟨by decide, by decide, by decide, by decide⟩

/-- C3 witness: the amended theorem applied at concrete inputs. -/
theorem c3_witness :
    parse_image_hash (List.replicate 32 0) = .ok (List.replicate 32 0) ∧
    parse_image_hash (hexEncode (List.replicate 32 255)) = .ok (List.replicate 32 255) ∧
    parse_image_hash [1, 2, 3] = .error .InvalidHashLength ∧
    parse_image_hash (43 :: List.replicate 63 103) = .error .InvalidHashLength :=
  ⟨c3_normalization_equivalence.1 _ (by decide),
    (c3_normalization_equivalence.2.1 _ (by decide) (by decide)).2,
    c3_normalization_equivalence.2.2.1 _ (by decide) (by decide),
    c3_normalization_equivalence.2.2.2 _ 103 (by decide) (by decide) (by decide) (by decide)⟩

/-- Errors of the parent-validation block are the propagated parse error or `ParentHashNotFound`. -/
theorem validateParent_error {s : PalletState} {p : Option Bytes} {e : PalletError}
    (h : validateParent s p = .error e) :
    e = .InvalidHashLength ∨ e = .ParentHashNotFound := by
  cases p with
  | none => exact absurd h (by simp [validateParent])
  | some parent =>
    rw [validateParent] at h
    split at h
    · rename_i e1 he1
      exact Or.inl ((Except.error.inj h) ▸ parse_image_hash_error he1)
    · split at h
      · exact absurd h (by simp)
      · exact Or.inr (Except.error.inj h).symm

/-- Errors of authority registration are `AuthorityNameTooLong` or `TooManyAuthorities`. -/
theorem register_or_get_authority_error {maxLen : Nat} {s : PalletState} {name : Bytes}
    {e : PalletError} (h : register_or_get_authority maxLen s name = .error e) :
    e = .AuthorityNameTooLong ∨ e = .TooManyAuthorities := by
  unfold register_or_get_authority at h
  split at h
  · split at h
    · exact absurd h (by simp)
    · split at h
      · exact absurd h (by simp)
      · exact Or.inr (Except.error.inj h).symm
  · exact Or.inl (Except.error.inj h).symm

/-- Every error of `submit_image_record` is one of the six per-record errors; in particular `InvalidParentHashLength` is never among them. -/
theorem submit_image_record_error_shape {maxLen ts bn ml : Nat} {s : PalletState}
    {ih : Bytes} {sty : SubmissionType} {p : Option Bytes} {an : Bytes} {e : PalletError}
    (h : submit_image_record maxLen s ts bn ih sty ml p an = .error e) :
    e = .InvalidModificationLevel ∨ e = .InvalidHashLength ∨ e = .ParentHashNotFound ∨
    e = .HashAlreadyExists ∨ e = .AuthorityNameTooLong ∨ e = .TooManyAuthorities := by
  unfold submit_image_record at h
  split at h
  · split at h
    · rename_i e1 he1
      exact Or.inr (Or.inl ((Except.error.inj h) ▸ parse_image_hash_error he1))
    · split at h
      · rename_i e1 he1
        rcases validateParent_error he1 with h1 | h1
        · exact Or.inr (Or.inl ((Except.error.inj h) ▸ h1))
        · exact Or.inr (Or.inr (Or.inl ((Except.error.inj h) ▸ h1)))
      · split at h
        · exact Or.inr (Or.inr (Or.inr (Or.inl (Except.error.inj h).symm)))
        · split at h
          · rename_i e1 he1
            rcases register_or_get_authority_error he1 with h1 | h1
            · exact Or.inr (Or.inr (Or.inr (Or.inr (Or.inl ((Except.error.inj h) ▸ h1)))))
            · exact Or.inr (Or.inr (Or.inr (Or.inr (Or.inr ((Except.error.inj h) ▸ h1)))))
          · exact absurd h (by simp)
  · exact Or.inl (Except.error.inj h).symm

/-- Every error of the batch loop body is one of the six per-record errors. -/
theorem batchItemStep_error_shape {maxLen ts bn : Nat} {s : PalletState}
    {item : BatchItem} {e : PalletError}
    (h : batchItemStep maxLen ts bn s item = .error e) :
    e = .InvalidModificationLevel ∨ e = .InvalidHashLength ∨ e = .ParentHashNotFound ∨
    e = .HashAlreadyExists ∨ e = .AuthorityNameTooLong ∨ e = .TooManyAuthorities := by
  unfold batchItemStep at h
  split at h
  · split at h
    · rename_i e1 he1
      exact Or.inr (Or.inl ((Except.error.inj h) ▸ parse_image_hash_error he1))
    · split at h
      · rename_i e1 he1
        rcases validateParent_error he1 with h1 | h1
        · exact Or.inr (Or.inl ((Except.error.inj h) ▸ h1))
        · exact Or.inr (Or.inr (Or.inl ((Except.error.inj h) ▸ h1)))
      · split at h
        · exact Or.inr (Or.inr (Or.inr (Or.inl (Except.error.inj h).symm)))
        · split at h
          · rename_i e1 he1
            rcases register_or_get_authority_error he1 with h1 | h1
            · exact Or.inr (Or.inr (Or.inr (Or.inr (Or.inl ((Except.error.inj h) ▸ h1)))))
            · exact Or.inr (Or.inr (Or.inr (Or.inr (Or.inr ((Except.error.inj h) ▸ h1)))))
          · exact absurd h (by simp)
  · exact Or.inl (Except.error.inj h).symm

/-- Every error of the batch loop is one of the six per-record errors. -/
theorem processBatchItems_error_shape : ∀ (items : List BatchItem) {maxLen ts bn : Nat}
    {s : PalletState} {e : PalletError},
    processBatchItems maxLen ts bn s items = .error e →
    e = .InvalidModificationLevel ∨ e = .InvalidHashLength ∨ e = .ParentHashNotFound ∨
    e = .HashAlreadyExists ∨ e = .AuthorityNameTooLong ∨ e = .TooManyAuthorities
  | [], _, _, _, _, _, h => absurd h (by simp [processBatchItems])
  | item :: rest, maxLen, ts, bn, s, e, h => by
    rw [processBatchItems] at h
    split at h
    · exact processBatchItems_error_shape rest h
    · rename_i e1 he1
      exact (Except.error.inj h) ▸ batchItemStep_error_shape he1

/-- Every error of `submit_image_batch` is a pre-check error or a per-record error. -/
theorem submit_image_batch_error_shape {maxLen ts bn : Nat} {s : PalletState}
    {items : List BatchItem} {e : PalletError}
    (h : submit_image_batch maxLen s ts bn items = .error e) :
    e = .EmptyBatch ∨ e = .BatchTooLarge ∨
    e = .InvalidModificationLevel ∨ e = .InvalidHashLength ∨ e = .ParentHashNotFound ∨
    e = .HashAlreadyExists ∨ e = .AuthorityNameTooLong ∨ e = .TooManyAuthorities := by
  unfold submit_image_batch at h
  split at h
  · exact Or.inl (Except.error.inj h).symm
  · split at h
    · split at h
      · exact absurd h (by simp)
      · rename_i e1 he1
        exact Or.inr (Or.inr ((Except.error.inj h) ▸ processBatchItems_error_shape items he1))
    · exact Or.inr (Or.inl (Except.error.inj h).symm)

/-- A freshly inserted key is contained. -/
theorem contains_key_cons_self {m : List (Bytes × ImageRecord)} {k : Bytes} {r : ImageRecord} :
    contains_key ((k, r) :: m) k = true := by
  simp [contains_key]

/-- Insertion preserves containment of other keys. -/
theorem contains_key_cons_of {m : List (Bytes × ImageRecord)} {k k1 : Bytes} {r : ImageRecord}
    (h : contains_key m k = true) : contains_key ((k1, r) :: m) k = true := by
  simp only [contains_key, List.any_cons, Bool.or_eq_true]
  exact Or.inr h

/-- If the items before position k succeed and item k fails with error e, the whole loop fails with e. -/
theorem processBatchItems_append_error {maxLen ts bn : Nat} :
    ∀ (pre : List BatchItem) (s s1 : PalletState) (item : BatchItem) (rest : List BatchItem)
      (e : PalletError),
    processBatchItems maxLen ts bn s pre = .ok s1 →
    batchItemStep maxLen ts bn s1 item = .error e →
    processBatchItems maxLen ts bn s (pre ++ item :: rest) = .error e
  | [], s, s1, item, rest, e, hpre, hitem => by
    have hs : s = s1 := Except.ok.inj hpre
    subst hs
    rw [List.nil_append, processBatchItems, hitem]
  | a :: pre, s, s1, item, rest, e, hpre, hitem => by
    rw [processBatchItems] at hpre
    cases hstep : batchItemStep maxLen ts bn s a with
    | error e2 => rw [hstep] at hpre; exact absurd hpre (by simp)
    | ok sa =>
      rw [hstep] at hpre
      rw [List.cons_append, processBatchItems, hstep]
      exact processBatchItems_append_error pre sa s1 item rest e hpre hitem

/-- Authority registration never touches the record store or the record counter, and appends at most one `AuthorityRegistered` event. -/
theorem register_or_get_authority_effects {maxLen : Nat} {s s1 : PalletState}
    {name : Bytes} {id : Nat}
    (h : register_or_get_authority maxLen s name = .ok (id, s1)) :
    s1.imageRecords = s.imageRecords ∧ s1.totalRecords = s.totalRecords ∧
    (s1.events = s.events ∨ s1.events = s.events ++ [Event.AuthorityRegistered id name]) := by
  unfold register_or_get_authority at h
  split at h
  · split at h
    · have h' := Except.ok.inj h
      rw [Prod.mk.injEq] at h'
      rw [← h'.2]
      exact ⟨rfl, rfl, Or.inl rfl⟩
    · split at h
      · have h' := Except.ok.inj h
        rw [Prod.mk.injEq] at h'
        obtain ⟨hid, hs1⟩ := h'
        subst hid
        rw [← hs1]
        exact ⟨rfl, rfl, Or.inr rfl⟩
      · exact absurd h (by simp)
  · exact absurd h (by simp)

/-- Authority registration succeeds whenever the name is short enough and the id space is not exhausted. -/
theorem register_or_get_authority_total {maxLen : Nat} {s : PalletState} {name : Bytes}
    (hlen : name.length ≤ maxLen) (hcap : s.nextAuthorityId < 65535) :
    ∃ id s1, register_or_get_authority maxLen s name = .ok (id, s1) := by
  unfold register_or_get_authority
  rw [if_pos hlen]
  cases hfind : s.authorityRegistry.find? (fun p => p.2 == name) with
  | some found => exact ⟨found.1, s, rfl⟩
  | none =>
    refine ⟨s.nextAuthorityId,
      { s with authorityRegistry := (s.nextAuthorityId, name) :: s.authorityRegistry,
               nextAuthorityId := s.nextAuthorityId + 1,
               events := s.events ++ [Event.AuthorityRegistered s.nextAuthorityId name] }, ?_⟩
    simp [hcap]

/-- Decomposition of a successful batch loop body: all checks passed in source order and the new state is the registration state plus the prepended record and the incremented counter. -/
theorem batchItemStep_ok {maxLen ts bn : Nat} {s s2 : PalletState} {item : BatchItem}
    (h : batchItemStep maxLen ts bn s item = .ok s2) :
    ∃ (H : Bytes) (pr : Option Bytes) (id : Nat) (s1 : PalletState),
      item.modification_level ≤ 2 ∧
      parse_image_hash item.image_hash = .ok H ∧
      validateParent s item.parent_image_hash = .ok pr ∧
      contains_key s.imageRecords H = false ∧
      register_or_get_authority maxLen s item.authority_name = .ok (id, s1) ∧
      s2 = { s1 with
        imageRecords := (H,
          { image_hash := H, submission_type := item.submission_type,
            modification_level := item.modification_level, parent_image_hash := pr,
            authority_id := id, timestamp := ts, block_number := bn }) :: s1.imageRecords,
        totalRecords := u64SaturatingSucc s1.totalRecords } := by
  unfold batchItemStep at h
  split at h
  · rename_i hml
    split at h
    · exact absurd h (by simp)
    · rename_i H hparse
      split at h
      · exact absurd h (by simp)
      · rename_i pr hpr
        split at h
        · exact absurd h (by simp)
        · rename_i hdup
          split at h
          · exact absurd h (by simp)
          · rename_i id s1 hreg
            exact ⟨H, pr, id, s1, hml, hparse, hpr, by simpa using hdup, hreg,
              (Except.ok.inj h).symm⟩
  · exact absurd h (by simp)

/-- Decomposition of a successful single-record submission, including the deposited `ImageRecordSubmitted` event. -/
theorem submit_image_record_ok {maxLen ts bn ml : Nat} {s s2 : PalletState} {ih an : Bytes}
    {sty : SubmissionType} {p : Option Bytes}
    (h : submit_image_record maxLen s ts bn ih sty ml p an = .ok s2) :
    ∃ (H : Bytes) (pr : Option Bytes) (id : Nat) (s1 : PalletState),
      ml ≤ 2 ∧ parse_image_hash ih = .ok H ∧ validateParent s p = .ok pr ∧
      contains_key s.imageRecords H = false ∧
      register_or_get_authority maxLen s an = .ok (id, s1) ∧
      s2 = { s1 with
        imageRecords := (H,
          { image_hash := H, submission_type := sty, modification_level := ml,
            parent_image_hash := pr, authority_id := id, timestamp := ts,
            block_number := bn }) :: s1.imageRecords,
        totalRecords := u64SaturatingSucc s1.totalRecords,
        events := s1.events ++ [Event.ImageRecordSubmitted H id ml] } := by
  unfold submit_image_record at h
  split at h
  · rename_i hml
    split at h
    · exact absurd h (by simp)
    · rename_i H hparse
      split at h
      · exact absurd h (by simp)
      · rename_i pr hpr
        split at h
        · exact absurd h (by simp)
        · rename_i hdup
          split at h
          · exact absurd h (by simp)
          · rename_i id s1 hreg
            exact ⟨H, pr, id, s1, hml, hparse, hpr, by simpa using hdup, hreg,
              (Except.ok.inj h).symm⟩
  · exact absurd h (by simp)

/-- A successfully validated supplied parent parses to a key already present in the store. -/
theorem validateParent_ok_some {s : PalletState} {parent : Bytes} {pr : Option Bytes}
    (h : validateParent s (some parent) = .ok pr) :
    ∃ P, parse_image_hash parent = .ok P ∧ pr = some P ∧
      contains_key s.imageRecords P = true := by
  rw [validateParent] at h
  split at h
  · exact absurd h (by simp)
  · rename_i P hP
    split at h
    · rename_i hc
      exact ⟨P, hP, (Except.ok.inj h).symm, hc⟩
    · exact absurd h (by simp)

/-- Whenever parent validation succeeds with `some P`, the key `P` is in the store. -/
theorem validateParent_ok_parent_present {s : PalletState} {p pr : Option Bytes}
    (h : validateParent s p = .ok pr) :
    ∀ P, pr = some P → contains_key s.imageRecords P = true := by
  intro P hP
  cases p with
  | none =>
    rw [validateParent] at h
    rw [← Except.ok.inj h] at hP
    exact absurd hP (by simp)
  | some parent =>
    obtain ⟨Q, _, hpr, hc⟩ := validateParent_ok_some h
    rw [hpr] at hP
    rw [← Option.some.inj hP]
    exact hc

/-- A successful batch loop body only adds records stamped with the given timestamp and block number and deposits neither batch nor per-record submission events. -/
theorem batchItemStep_effects {maxLen ts bn : Nat} {s s2 : PalletState} {item : BatchItem}
    (h : batchItemStep maxLen ts bn s item = .ok s2) :
    (∀ q ∈ s2.imageRecords, q ∈ s.imageRecords ∨
      (q.2.timestamp = ts ∧ q.2.block_number = bn)) ∧
    s2.events.filter isBatchEvent = s.events.filter isBatchEvent ∧
    s2.events.filter isRecordEvent = s.events.filter isRecordEvent := by
  obtain ⟨H, pr, id, s1, hml, hparse, hpr, hdup, hreg, hs2⟩ := batchItemStep_ok h
  obtain ⟨hrec, htot, hev⟩ := register_or_get_authority_effects hreg
  subst hs2
  refine ⟨?_, ?_, ?_⟩
  · intro q hq
    rcases List.mem_cons.mp hq with rfl | hq
    · exact Or.inr ⟨rfl, rfl⟩
    · rw [hrec] at hq
      exact Or.inl hq
  · rcases hev with hev | hev <;> simp [hev, isBatchEvent, List.filter_append]
  · rcases hev with hev | hev <;> simp [hev, isRecordEvent, List.filter_append]

/-- The batch loop only adds records stamped with the shared timestamp and block number and deposits neither batch nor per-record submission events. -/
theorem processBatchItems_effects : ∀ (items : List BatchItem) {maxLen ts bn : Nat}
    {s s2 : PalletState}, processBatchItems maxLen ts bn s items = .ok s2 →
    (∀ q ∈ s2.imageRecords, q ∈ s.imageRecords ∨
      (q.2.timestamp = ts ∧ q.2.block_number = bn)) ∧
    s2.events.filter isBatchEvent = s.events.filter isBatchEvent ∧
    s2.events.filter isRecordEvent = s.events.filter isRecordEvent
  | [], _, _, _, s, s2, h => by
    have hs : s = s2 := Except.ok.inj h
    subst hs
    exact ⟨fun q hq => Or.inl hq, rfl, rfl⟩
  | item :: rest, maxLen, ts, bn, s, s2, h => by
    rw [processBatchItems] at h
    cases hstep : batchItemStep maxLen ts bn s item with
    | error e => rw [hstep] at h; exact absurd h (by simp)
    | ok sa =>
      rw [hstep] at h
      obtain ⟨hq1, hb1, hr1⟩ := batchItemStep_effects hstep
      obtain ⟨hq2, hb2, hr2⟩ := processBatchItems_effects rest h
      refine ⟨?_, by rw [hb2, hb1], by rw [hr2, hr1]⟩
      intro q hq
      rcases hq2 q hq with hq' | hts
      · exact hq1 q hq'
      · exact Or.inr hts

/-- C6 (amended): a supplied parent hash that fails normalization makes both the single-record path and the batch loop body fail with `InvalidHashLength` (the parse error propagated unchanged by the question-mark operator), and the declared `InvalidParentHashLength` error is never returned by either dispatchable. -/
theorem c6_parent_shape_error :
    (∀ (maxLen ts bn ml : Nat) (s : PalletState) (ih pInput an H : Bytes)
      (sty : SubmissionType), ml ≤ 2 → parse_image_hash ih = .ok H →
      parse_image_hash pInput = .error .InvalidHashLength →
      submit_image_record maxLen s ts bn ih sty ml (some pInput) an
        = .error .InvalidHashLength) ∧
    (∀ (maxLen ts bn : Nat) (s : PalletState) (item : BatchItem) (pInput H : Bytes),
      item.modification_level ≤ 2 → parse_image_hash item.image_hash = .ok H →
      item.parent_image_hash = some pInput →
      parse_image_hash pInput = .error .InvalidHashLength →
      batchItemStep maxLen ts bn s item = .error .InvalidHashLength) ∧
    (∀ (maxLen ts bn ml : Nat) (s : PalletState) (ih an : Bytes) (sty : SubmissionType)
      (p : Option Bytes),
      submit_image_record maxLen s ts bn ih sty ml p an ≠ .error .InvalidParentHashLength) ∧
    (∀ (maxLen ts bn : Nat) (s : PalletState) (items : List BatchItem),
      submit_image_batch maxLen s ts bn items ≠ .error .InvalidParentHashLength) := by
  refine ⟨?_, ?_, ?_, ?_⟩
  · intro maxLen ts bn ml s ih pInput an H sty hml hih hp
    rw [submit_image_record, if_pos hml, hih]
    simp only [validateParent, hp]
  · intro maxLen ts bn s item pInput H hml hih hpeq hp
    rw [batchItemStep, if_pos hml, hih, hpeq]
    simp only [validateParent, hp]
  · intro maxLen ts bn ml s ih an sty p h
    rcases submit_image_record_error_shape h with h1 | h1 | h1 | h1 | h1 | h1 <;>
      exact PalletError.noConfusion h1
  · intro maxLen ts bn s items h
    rcases submit_image_batch_error_shape h with h1 | h1 | h1 | h1 | h1 | h1 | h1 | h1 <;>
      exact PalletError.noConfusion h1

/-- C6 counterexample: from genesis, a submission with the 3-byte parent hash 1-2-3 fails with `InvalidHashLength`, not with `InvalidParentHashLength` as the claim states. -/
theorem c6_counterexample :
    dispatch_submit_image_record 100 genesisState 12345 1 hashA .Camera 0
        (some [1, 2, 3]) nameA = (genesisState, some .InvalidHashLength) ∧
    PalletError.InvalidHashLength ≠ PalletError.InvalidParentHashLength :=
  ⟨by decide, by decide⟩

/-- C6 witness: the amended theorem applied at concrete inputs. -/
theorem c6_witness :
    submit_image_record 100 genesisState 12345 1 hashA .Camera 0 (some [1, 2, 3]) nameA
        = .error .InvalidHashLength ∧
    batchItemStep 100 12345 1 genesisState ⟨hashA, .Camera, 0, some [1, 2, 3], nameA⟩
        = .error .InvalidHashLength ∧
    submit_image_record 100 genesisState 12345 1 hashA .Camera 0 (some [1, 2, 3]) nameA
        ≠ .error .InvalidParentHashLength ∧
    submit_image_batch 100 genesisState 12345 1 [⟨hashA, .Camera, 0, some [1, 2, 3], nameA⟩]
        ≠ .error .InvalidParentHashLength :=
  ⟨c6_parent_shape_error.1 100 12345 1 0 genesisState hashA [1, 2, 3] nameA hashA .Camera
      (by decide) (by decide) (by decide),
    c6_parent_shape_error.2.1 100 12345 1 genesisState ⟨hashA, .Camera, 0, some [1, 2, 3], nameA⟩
      [1, 2, 3] hashA (by decide) (by decide) (by decide) (by decide),
    c6_parent_shape_error.2.2.1 100 12345 1 0 genesisState hashA nameA .Camera (some [1, 2, 3]),
    c6_parent_shape_error.2.2.2 100 12345 1 genesisState
      [⟨hashA, .Camera, 0, some [1, 2, 3], nameA⟩]⟩

/-- C7 (amended): the modification-level check runs before hash normalization in both paths, so any submission with level above 2 fails with `InvalidModificationLevel` regardless of the shape of its image hash. -/
theorem c7_modification_level_first :
    (∀ (maxLen ts bn ml : Nat) (s : PalletState) (ih an : Bytes) (sty : SubmissionType)
      (p : Option Bytes), 2 < ml →
      submit_image_record maxLen s ts bn ih sty ml p an = .error .InvalidModificationLevel) ∧
    (∀ (maxLen ts bn : Nat) (s : PalletState) (item : BatchItem),
      2 < item.modification_level →
      batchItemStep maxLen ts bn s item = .error .InvalidModificationLevel) := by
  constructor
  · intro maxLen ts bn ml s ih an sty p hml
    rw [submit_image_record, if_neg (by omega)]
  · intro maxLen ts bn s item hml
    rw [batchItemStep, if_neg (by omega)]

/-- C7 counterexample: the empty image hash has invalid shape and the level 3 is out of range, yet the returned error is `InvalidModificationLevel`, not `InvalidHashLength` as the claim states. -/
theorem c7_counterexample :
    submit_image_record 100 genesisState 12345 1 [] .Camera 3 none nameA
        = .error .InvalidModificationLevel ∧
    ([] : Bytes).length ≠ 32 ∧ ([] : Bytes).length ≠ 64 ∧
    PalletError.InvalidModificationLevel ≠ PalletError.InvalidHashLength :=
  ⟨by decide, by decide, by decide, by decide⟩

/-- C7 witness: the amended theorem applied at concrete inputs. -/
theorem c7_witness :
    submit_image_record 100 genesisState 12345 1 [] .Software 5 none nameA
        = .error .InvalidModificationLevel ∧
    batchItemStep 100 12345 1 genesisState ⟨[], .Camera, 7, none, nameA⟩
        = .error .InvalidModificationLevel :=
  ⟨c7_modification_level_first.1 100 12345 1 5 genesisState [] nameA .Software none (by decide),
    c7_modification_level_first.2 100 12345 1 genesisState ⟨[], .Camera, 7, none, nameA⟩
      (by decide)⟩

/-- C2: when hash H is already stored, an otherwise valid submission whose input normalizes to H (binary or hex form) fails with `HashAlreadyExists`, and the dispatched call leaves the state, the total-record counter and the stored record for H unchanged. -/
theorem c2_uniqueness {maxLen ts bn ml : Nat} {s : PalletState} {input H : Bytes}
    {sty : SubmissionType} {p pr : Option Bytes} {an : Bytes}
    (hml : ml ≤ 2) (hparse : parse_image_hash input = .ok H)
    (hp : validateParent s p = .ok pr)
    (hdup : contains_key s.imageRecords H = true) :
    submit_image_record maxLen s ts bn input sty ml p an = .error .HashAlreadyExists ∧
    dispatch_submit_image_record maxLen s ts bn input sty ml p an
      = (s, some .HashAlreadyExists) ∧
    get_total_records (dispatch_submit_image_record maxLen s ts bn input sty ml p an).1
      = get_total_records s ∧
    get_image_record (dispatch_submit_image_record maxLen s ts bn input sty ml p an).1 H
      = get_image_record s H := by
  have h1 : submit_image_record maxLen s ts bn input sty ml p an
      = .error .HashAlreadyExists := by
    simp only [submit_image_record, hml, hparse, hp, hdup, if_true, ite_true]
  have h2 : dispatch_submit_image_record maxLen s ts bn input sty ml p an
      = (s, some .HashAlreadyExists) := by
    rw [dispatch_submit_image_record, h1]
  exact ⟨h1, h2, by rw [h2], by rw [h2]⟩

/-- C2 witness: resubmitting the stored hash of `stateA` in hex form fails with `HashAlreadyExists` and leaves the state unchanged. -/
theorem c2_witness :
    dispatch_submit_image_record 100 stateA 99 2 (hexEncode hashA) .Software 2 none nameA
      = (stateA, some .HashAlreadyExists) :=
  (@c2_uniqueness 100 99 2 2 stateA (hexEncode hashA) hashA .Software none none nameA
    (by decide) (by decide) (by decide) (by decide)).2.1

/-- C8: a second registration of the same name returns the same id and exactly the state left by the first call (no mutation, no event); a fresh first registration returns the previous next-id and advances the counter by exactly one; a name already present is returned with its existing id and no state change. -/
theorem c8_dictionary_idempotence :
    (∀ (maxLen : Nat) (s s1 : PalletState) (name : Bytes) (id : Nat),
      register_or_get_authority maxLen s name = .ok (id, s1) →
      register_or_get_authority maxLen s1 name = .ok (id, s1)) ∧
    (∀ (maxLen : Nat) (s s1 : PalletState) (name : Bytes) (id : Nat),
      register_or_get_authority maxLen s name = .ok (id, s1) →
      s.authorityRegistry.find? (fun p => p.2 == name) = none →
      id = s.nextAuthorityId ∧ s1.nextAuthorityId = s.nextAuthorityId + 1) ∧
    (∀ (maxLen : Nat) (s : PalletState) (name : Bytes) (found : Nat × Bytes),
      name.length ≤ maxLen →
      s.authorityRegistry.find? (fun p => p.2 == name) = some found →
      register_or_get_authority maxLen s name = .ok (found.1, s)) := by
  refine ⟨?_, ?_, ?_⟩
  · intro maxLen s s1 name id h
    unfold register_or_get_authority at h
    split at h
    · rename_i hlen
      split at h
      · rename_i found hfind
        have h' := Except.ok.inj h
        have hid : found.1 = id := congrArg Prod.fst h'
        have hs : s = s1 := congrArg Prod.snd h'
        subst hid
        subst hs
        unfold register_or_get_authority
        rw [if_pos hlen, hfind]
      · rename_i hfind
        split at h
        · rename_i hcap
          have h' := Except.ok.inj h
          rw [Prod.mk.injEq] at h'
          obtain ⟨hid, hs1⟩ := h'
          subst hid
          unfold register_or_get_authority
          rw [if_pos hlen, ← hs1]
          rw [List.find?_cons_of_pos _ (by simp)]
        · exact absurd h (by simp)
    · exact absurd h (by simp)
  · intro maxLen s s1 name id h hfind
    unfold register_or_get_authority at h
    split at h
    · simp only [hfind] at h
      split at h
      · have h' := Except.ok.inj h
        rw [Prod.mk.injEq] at h'
        exact ⟨h'.1.symm, by rw [← h'.2]⟩
      · exact absurd h (by simp)
    · exact absurd h (by simp)
  · intro maxLen s name found hlen hfind
    unfold register_or_get_authority
    rw [if_pos hlen, hfind]

/-- C8 witness: registering the name twice from genesis yields id 0 both times and one counter step. -/
theorem c8_witness :
    register_or_get_authority 100 genesisState nameA = .ok (0, authStateA) ∧
    register_or_get_authority 100 authStateA nameA = .ok (0, authStateA) ∧
    authStateA.nextAuthorityId = genesisState.nextAuthorityId + 1 :=
  ⟨by decide,
    c8_dictionary_idempotence.1 100 genesisState authStateA nameA 0 (by decide),
    (c8_dictionary_idempotence.2.1 100 genesisState authStateA nameA 0 (by decide)
      (by decide)).2⟩

/-- C1: if the items before position k of a batch succeed and item k fails with error e, the whole `submit_image_batch` call returns e, and the dispatched call leaves the state exactly equal to the pre-call state (the transactional rollback of the surrounding ledger that the pallet relies on). -/
theorem c1_batch_atomicity {maxLen ts bn : Nat} {s s1 : PalletState}
    {pre : List BatchItem} {item : BatchItem} {rest : List BatchItem} {e : PalletError}
    (hlen : (pre ++ item :: rest).length ≤ 100)
    (hpre : processBatchItems maxLen ts bn s pre = .ok s1)
    (hitem : batchItemStep maxLen ts bn s1 item = .error e) :
    submit_image_batch maxLen s ts bn (pre ++ item :: rest) = .error e ∧
    dispatch_submit_image_batch maxLen s ts bn (pre ++ item :: rest) = (s, some e) := by
  have hne : (pre ++ item :: rest).isEmpty = false := by
    cases pre <;> rfl
  have herr := processBatchItems_append_error pre s s1 item rest e hpre hitem
  have h1 : submit_image_batch maxLen s ts bn (pre ++ item :: rest) = .error e := by
    rw [submit_image_batch]
    simp only [hne, Bool.false_eq_true, if_false, if_pos hlen, herr]
  exact ⟨h1, by rw [dispatch_submit_image_batch, h1]⟩

/-- C1 witness: a two-item batch whose second item has modification level 3 is rejected whole and leaves genesis unchanged. -/
theorem c1_witness :
    dispatch_submit_image_batch 100 genesisState 12345 1 [itemGood, itemBad]
      = (genesisState, some .InvalidModificationLevel) :=
  (@c1_batch_atomicity 100 12345 1 genesisState batchStateA [itemGood] itemBad []
    .InvalidModificationLevel (by decide) (by decide) (by decide)).2

/-- C9: the empty batch fails with `EmptyBatch` and any batch of more than 100 items fails with `BatchTooLarge`, in both cases with the pre-call state returned unchanged regardless of item contents; and a successful batch stamps every new record with the shared timestamp and block number, deposits exactly one additional `ImageBatchSubmitted` event carrying the item count, and deposits no per-item submission event. -/
theorem c9_batch_prechecks_and_snapshot :
    (∀ (maxLen ts bn : Nat) (s : PalletState),
      dispatch_submit_image_batch maxLen s ts bn [] = (s, some .EmptyBatch)) ∧
    (∀ (maxLen ts bn : Nat) (s : PalletState) (records : List BatchItem),
      100 < records.length →
      dispatch_submit_image_batch maxLen s ts bn records = (s, some .BatchTooLarge)) ∧
    (∀ (maxLen ts bn : Nat) (s s2 : PalletState) (records : List BatchItem),
      submit_image_batch maxLen s ts bn records = .ok s2 →
      (∀ q ∈ s2.imageRecords, q ∈ s.imageRecords ∨
        (q.2.timestamp = ts ∧ q.2.block_number = bn)) ∧
      (s2.events.filter isBatchEvent).length = (s.events.filter isBatchEvent).length + 1 ∧
      Event.ImageBatchSubmitted records.length ∈ s2.events ∧
      s2.events.filter isRecordEvent = s.events.filter isRecordEvent) := by
  refine ⟨?_, ?_, ?_⟩
  · intro maxLen ts bn s
    rfl
  · intro maxLen ts bn s records hlen
    have hne : records.isEmpty = false := by
      cases records with
      | nil => exact absurd hlen (by simp)
      | cons a l => rfl
    have h1 : submit_image_batch maxLen s ts bn records = .error .BatchTooLarge := by
      rw [submit_image_batch]
      simp only [hne, Bool.false_eq_true, if_false]
      rw [if_neg (by omega)]
    rw [dispatch_submit_image_batch, h1]
  · intro maxLen ts bn s s2 records h
    unfold submit_image_batch at h
    split at h
    · exact absurd h (by simp)
    · split at h
      · split at h
        · rename_i s1 hloop
          obtain ⟨hq, hb, hr⟩ := processBatchItems_effects records hloop
          have hs2 := (Except.ok.inj h).symm
          subst hs2
          refine ⟨hq, ?_, ?_, ?_⟩
          · simp only [List.filter_append, List.length_append, hb]
            simp [isBatchEvent]
          · simp
          · simp only [List.filter_append, hr]
            simp [isRecordEvent]
        · exact absurd h (by simp)
      · exact absurd h (by simp)

/-- C9 witness: the theorem applied to the empty batch, a 101-item batch, and a successful singleton batch. -/
theorem c9_witness :
    dispatch_submit_image_batch 100 genesisState 5 1 [] = (genesisState, some .EmptyBatch) ∧
    dispatch_submit_image_batch 100 genesisState 5 1 (List.replicate 101 itemGood)
      = (genesisState, some .BatchTooLarge) ∧
    Event.ImageBatchSubmitted ([itemGood] : List BatchItem).length ∈ batchDoneA.events :=
  ⟨c9_batch_prechecks_and_snapshot.1 100 5 1 genesisState,
   c9_batch_prechecks_and_snapshot.2.1 100 5 1 genesisState (List.replicate 101 itemGood)
     (by decide),
   (c9_batch_prechecks_and_snapshot.2.2 100 12345 1 genesisState batchDoneA [itemGood]
     (by decide)).2.2.1⟩

/-- C4: a single submission naming an absent parent fails with `ParentHashNotFound`; a batch item naming a parent absent from the state left by the preceding items makes the whole batch fail with `ParentHashNotFound`; a batch item whose parent is present in that intermediate state and whose other fields are valid succeeds; and a successful item makes its own hash present while preserving all previously present keys. -/
theorem c4_provenance_ordering :
    (∀ (maxLen ts bn ml : Nat) (s : PalletState) (ih pInput an H P : Bytes)
      (sty : SubmissionType), ml ≤ 2 → parse_image_hash ih = .ok H →
      parse_image_hash pInput = .ok P → contains_key s.imageRecords P = false →
      submit_image_record maxLen s ts bn ih sty ml (some pInput) an
        = .error .ParentHashNotFound) ∧
    (∀ (maxLen ts bn : Nat) (s s1 : PalletState) (pre : List BatchItem) (item : BatchItem)
      (rest : List BatchItem) (pInput H P : Bytes),
      (pre ++ item :: rest).length ≤ 100 →
      processBatchItems maxLen ts bn s pre = .ok s1 →
      item.modification_level ≤ 2 → parse_image_hash item.image_hash = .ok H →
      item.parent_image_hash = some pInput → parse_image_hash pInput = .ok P →
      contains_key s1.imageRecords P = false →
      submit_image_batch maxLen s ts bn (pre ++ item :: rest)
        = .error .ParentHashNotFound) ∧
    (∀ (maxLen ts bn : Nat) (s1 : PalletState) (item : BatchItem) (pInput H P : Bytes),
      item.modification_level ≤ 2 → parse_image_hash item.image_hash = .ok H →
      item.parent_image_hash = some pInput → parse_image_hash pInput = .ok P →
      contains_key s1.imageRecords P = true → contains_key s1.imageRecords H = false →
      item.authority_name.length ≤ maxLen → s1.nextAuthorityId < 65535 →
      ∃ s2, batchItemStep maxLen ts bn s1 item = .ok s2) ∧
    (∀ (maxLen ts bn : Nat) (s s2 : PalletState) (item : BatchItem) (H : Bytes),
      batchItemStep maxLen ts bn s item = .ok s2 →
      parse_image_hash item.image_hash = .ok H →
      contains_key s2.imageRecords H = true ∧
      ∀ k, contains_key s.imageRecords k = true → contains_key s2.imageRecords k = true) := by
  refine ⟨?_, ?_, ?_, ?_⟩
  · intro maxLen ts bn ml s ih pInput an H P sty hml hih hP hc
    simp only [submit_image_record, hml, if_true, hih, validateParent, hP, hc,
      Bool.false_eq_true, if_false]
  · intro maxLen ts bn s s1 pre item rest pInput H P hlen hpre hml hih hpeq hP hc
    have hstep : batchItemStep maxLen ts bn s1 item = .error .ParentHashNotFound := by
      simp only [batchItemStep, hml, if_true, hih, hpeq, validateParent, hP, hc,
        Bool.false_eq_true, if_false]
    have herr := processBatchItems_append_error pre s s1 item rest _ hpre hstep
    have hne : (pre ++ item :: rest).isEmpty = false := by
      cases pre <;> rfl
    rw [submit_image_batch]
    simp only [hne, Bool.false_eq_true, if_false, if_pos hlen, herr]
  · intro maxLen ts bn s1 item pInput H P hml hih hpeq hP hcP hcH hlen hcap
    obtain ⟨id, sreg, hreg⟩ := register_or_get_authority_total hlen hcap
    refine ⟨{ sreg with
      imageRecords := (H,
        { image_hash := H, submission_type := item.submission_type,
          modification_level := item.modification_level, parent_image_hash := some P,
          authority_id := id, timestamp := ts, block_number := bn }) :: sreg.imageRecords,
      totalRecords := u64SaturatingSucc sreg.totalRecords }, ?_⟩
    simp only [batchItemStep, hml, if_true, hih, hpeq, validateParent, hP, hcP,
      hcH, Bool.false_eq_true, if_false, hreg]
  · intro maxLen ts bn s s2 item H hstep hih
    obtain ⟨H2, pr, id, s1, hml, hparse, hpr, hdup, hreg, hs2⟩ := batchItemStep_ok hstep
    have hH : H = H2 := by
      rw [hih] at hparse
      exact Except.ok.inj hparse
    subst hH
    obtain ⟨hrec, _, _⟩ := register_or_get_authority_effects hreg
    subst hs2
    constructor
    · exact contains_key_cons_self
    · intro k hk
      have hk1 : contains_key s1.imageRecords k = true := by rw [hrec]; exact hk
      exact contains_key_cons_of hk1

/-- C4 witness: the theorem applied at concrete inputs, including an item whose parent was inserted by the preceding batch item. -/
theorem c4_witness :
    submit_image_record 100 genesisState 12345 1 hashA .Camera 0 (some hashB) nameA
      = .error .ParentHashNotFound ∧
    submit_image_batch 100 genesisState 12345 1 [itemGood, itemOrphan]
      = .error .ParentHashNotFound ∧
    (∃ s2, batchItemStep 100 12345 1 batchStateA itemChild = .ok s2) ∧
    contains_key batchStateA.imageRecords hashA = true :=
  ⟨c4_provenance_ordering.1 100 12345 1 0 genesisState hashA hashB nameA hashA hashB .Camera
      (by decide) (by decide) (by decide) (by decide),
   c4_provenance_ordering.2.1 100 12345 1 genesisState batchStateA [itemGood] itemOrphan []
      (List.replicate 32 11) hashB (List.replicate 32 11) (by decide) (by decide) (by decide)
      (by decide) (by decide) (by decide) (by decide),
   c4_provenance_ordering.2.2.1 100 12345 1 batchStateA itemChild hashA hashB hashA
      (by decide) (by decide) (by decide) (by decide) (by decide) (by decide) (by decide)
      (by decide),
   (c4_provenance_ordering.2.2.2 100 12345 1 genesisState batchStateA itemGood hashA
      (by decide) (by decide)).1⟩

/-- Prepending a record with a fresh key whose parent is already present preserves chain well-formation. -/
theorem storeChainOk_insert {m : List (Bytes × ImageRecord)} {k : Bytes} {r : ImageRecord}
    (hm : storeChainOk m) (hk : contains_key m k = false)
    (hp : ∀ P, r.parent_image_hash = some P → contains_key m P = true) :
    storeChainOk ((k, r) :: m) := by
  refine ⟨?_, ?_, hm⟩
  · intro q hq hqk
    have : contains_key m k = true := by
      simp only [contains_key, List.any_eq_true]
      exact ⟨q, hq, by simp [hqk]⟩
    rw [this] at hk
    exact absurd hk (by simp)
  · intro P hP
    have hc := hp P hP
    simp only [contains_key, List.any_eq_true, beq_iff_eq] at hc
    exact hc

/-- Under chain well-formation, the parent end of every store edge is a key of the store. -/
theorem chainRel_parent_mem : ∀ (m : List (Bytes × ImageRecord)) {c p : Bytes},
    storeChainOk m → chainRel m c p → ∃ q ∈ m, q.1 = p
  | [], c, p, _, hrel => by
    obtain ⟨r, hget, _⟩ := hrel
    simp [storageGet] at hget
  | (k, r) :: rest, c, p, hm, hrel => by
    obtain ⟨rec, hget, hparent⟩ := hrel
    by_cases hck : k = c
    · subst hck
      rw [storageGet, List.find?_cons_of_pos _ (by simp)] at hget
      have hr : rec = r := by
        simpa using hget.symm
      subst hr
      obtain ⟨q, hq, hq1⟩ := hm.2.1 p hparent
      exact ⟨q, List.mem_cons_of_mem _ hq, hq1⟩
    · rw [storageGet, List.find?_cons_of_neg _ (by simp [hck])] at hget
      obtain ⟨q, hq, hq1⟩ := chainRel_parent_mem rest hm.2.2 ⟨rec, hget, hparent⟩
      exact ⟨q, List.mem_cons_of_mem _ hq, hq1⟩

/-- An edge that does not start at the newest key is an edge of the older store. -/
theorem chainRel_of_cons {m : List (Bytes × ImageRecord)} {k : Bytes} {r : ImageRecord}
    {c p : Bytes} (hck : c ≠ k) (h : chainRel ((k, r) :: m) c p) : chainRel m c p := by
  obtain ⟨rec, hget, hparent⟩ := h
  rw [storageGet, List.find?_cons_of_neg _ (by simp [Ne.symm hck])] at hget
  exact ⟨rec, hget, hparent⟩

/-- No store edge points at the newest key: a record inserted later is never the parent of any record. -/
theorem storeChainOk_no_edge_to_head {m : List (Bytes × ImageRecord)} {k : Bytes}
    {r : ImageRecord} (hm : storeChainOk ((k, r) :: m)) :
    ∀ c p, chainRel ((k, r) :: m) c p → p ≠ k := by
  intro c p hrel
  by_cases hck : c = k
  · subst hck
    obtain ⟨rec, hget, hparent⟩ := hrel
    rw [storageGet, List.find?_cons_of_pos _ (by simp)] at hget
    have hr : rec = r := by simpa using hget.symm
    subst hr
    obtain ⟨q, hq, hq1⟩ := hm.2.1 p hparent
    intro hpk
    exact hm.1 q hq (hq1.trans hpk)
  · have hrest := chainRel_of_cons hck hrel
    obtain ⟨q, hq, hq1⟩ := chainRel_parent_mem m hm.2.2 hrest
    intro hpk
    exact hm.1 q hq (hq1.trans hpk)

/-- A chain well-formed store has no cycle in its child-to-parent relation. -/
theorem storeChainOk_no_cycle : ∀ (m : List (Bytes × ImageRecord)), storeChainOk m →
    ∀ x, ¬ Relation.TransGen (chainRel m) x x
  | [], _, x, hcyc => by
    obtain ⟨b, _, hbk⟩ := Relation.TransGen.tail'_iff.mp hcyc
    obtain ⟨r, hget, _⟩ := hbk
    simp [storageGet] at hget
  | (k, r) :: rest, hm, x, hcyc => by
    by_cases hx : x = k
    · obtain ⟨b, _, hbk⟩ := Relation.TransGen.tail'_iff.mp hcyc
      exact storeChainOk_no_edge_to_head hm b x hbk (hx ▸ rfl)
    · have hdown : ∀ a, Relation.TransGen (chainRel ((k, r) :: rest)) a x → a ≠ k →
          Relation.TransGen (chainRel rest) a x := by
        intro a htg
        induction htg using Relation.TransGen.head_induction_on with
        | base h =>
          intro ha
          exact Relation.TransGen.single (chainRel_of_cons ha h)
        | ih h htail IH =>
          intro ha
          rename_i a1 c1
          have hc1 : c1 ≠ k := storeChainOk_no_edge_to_head hm a1 c1 h
          exact Relation.TransGen.head (chainRel_of_cons ha h) (IH hc1)
      exact storeChainOk_no_cycle rest hm.2.2 x (hdown x hcyc hx)

/-- The batch loop body preserves chain well-formation of the store. -/
theorem batchItemStep_chainOk {maxLen ts bn : Nat} {s s2 : PalletState} {item : BatchItem}
    (h : batchItemStep maxLen ts bn s item = .ok s2) (hs : storeChainOk s.imageRecords) :
    storeChainOk s2.imageRecords := by
  obtain ⟨H, pr, id, s1, hml, hparse, hpr, hdup, hreg, hs2⟩ := batchItemStep_ok h
  obtain ⟨hrec, _, _⟩ := register_or_get_authority_effects hreg
  subst hs2
  show storeChainOk ((H, _) :: s1.imageRecords)
  rw [hrec]
  exact storeChainOk_insert hs hdup (validateParent_ok_parent_present hpr)

/-- Single-record submission preserves chain well-formation of the store. -/
theorem submit_image_record_chainOk {maxLen ts bn ml : Nat} {s s2 : PalletState}
    {ih an : Bytes} {sty : SubmissionType} {p : Option Bytes}
    (h : submit_image_record maxLen s ts bn ih sty ml p an = .ok s2)
    (hs : storeChainOk s.imageRecords) : storeChainOk s2.imageRecords := by
  obtain ⟨H, pr, id, s1, hml, hparse, hpr, hdup, hreg, hs2⟩ := submit_image_record_ok h
  obtain ⟨hrec, _, _⟩ := register_or_get_authority_effects hreg
  subst hs2
  show storeChainOk ((H, _) :: s1.imageRecords)
  rw [hrec]
  exact storeChainOk_insert hs hdup (validateParent_ok_parent_present hpr)

/-- The batch loop preserves chain well-formation of the store. -/
theorem processBatchItems_chainOk : ∀ (items : List BatchItem) {maxLen ts bn : Nat}
    {s s2 : PalletState}, processBatchItems maxLen ts bn s items = .ok s2 →
    storeChainOk s.imageRecords → storeChainOk s2.imageRecords
  | [], _, _, _, s, s2, h, hs => by
    have : s = s2 := Except.ok.inj h
    subst this
    exact hs
  | item :: rest, maxLen, ts, bn, s, s2, h, hs => by
    rw [processBatchItems] at h
    cases hstep : batchItemStep maxLen ts bn s item with
    | error e => rw [hstep] at h; exact absurd h (by simp)
    | ok sa =>
      rw [hstep] at h
      exact processBatchItems_chainOk rest h (batchItemStep_chainOk hstep hs)

/-- Batch submission preserves chain well-formation of the store. -/
theorem submit_image_batch_chainOk {maxLen ts bn : Nat} {s s2 : PalletState}
    {items : List BatchItem} (h : submit_image_batch maxLen s ts bn items = .ok s2)
    (hs : storeChainOk s.imageRecords) : storeChainOk s2.imageRecords := by
  unfold submit_image_batch at h
  split at h
  · exact absurd h (by simp)
  · split at h
    · split at h
      · rename_i s1 hloop
        have hs2 := (Except.ok.inj h).symm
        subst hs2
        have hres := processBatchItems_chainOk items hloop hs
        exact hres
      · exact absurd h (by simp)
    · exact absurd h (by simp)

/-- Every reachable state has a chain well-formed store. -/
theorem reachable_chainOk {maxLen : Nat} {s : PalletState} (h : Reachable maxLen s) :
    storeChainOk s.imageRecords := by
  induction h with
  | genesis => trivial
  | submitRecord _ hok ih => exact submit_image_record_chainOk hok ih
  | submitBatch _ hok ih => exact submit_image_batch_chainOk hok ih

/-- C5: the parent-existence check runs strictly before the duplicate check, so a submission with an absent parent and an already-stored own hash fails with `ParentHashNotFound` (not `HashAlreadyExists`); a record naming its own not-yet-stored hash as parent is rejected with `ParentHashNotFound`; and in every reachable state the store is chain well-formed (each stored record was inserted strictly after its parent) and the child-to-parent relation is acyclic. -/
theorem c5_parent_check_order :
    (∀ (maxLen ts bn ml : Nat) (s : PalletState) (ih pInput an H P : Bytes)
      (sty : SubmissionType), ml ≤ 2 → parse_image_hash ih = .ok H →
      parse_image_hash pInput = .ok P → contains_key s.imageRecords P = false →
      contains_key s.imageRecords H = true →
      submit_image_record maxLen s ts bn ih sty ml (some pInput) an
        = .error .ParentHashNotFound ∧
      PalletError.ParentHashNotFound ≠ PalletError.HashAlreadyExists) ∧
    (∀ (maxLen ts bn ml : Nat) (s : PalletState) (ih an H : Bytes) (sty : SubmissionType),
      ml ≤ 2 → parse_image_hash ih = .ok H → contains_key s.imageRecords H = false →
      submit_image_record maxLen s ts bn ih sty ml (some ih) an
        = .error .ParentHashNotFound) ∧
    (∀ (maxLen : Nat) (s : PalletState), Reachable maxLen s →
      storeChainOk s.imageRecords ∧
      ∀ H, ¬ Relation.TransGen (chainRel s.imageRecords) H H) := by
  refine ⟨?_, ?_, ?_⟩
  · intro maxLen ts bn ml s ih pInput an H P sty hml hih hP hcP hcH
    refine ⟨?_, by simp⟩
    simp only [submit_image_record, hml, if_true, hih, validateParent, hP, hcP,
      Bool.false_eq_true, if_false]
  · intro maxLen ts bn ml s ih an H sty hml hih hcH
    simp only [submit_image_record, hml, if_true, hih, validateParent, hcH,
      Bool.false_eq_true, if_false]
  · intro maxLen s hreach
    have hok := reachable_chainOk hreach
    exact ⟨hok, storeChainOk_no_cycle s.imageRecords hok⟩

/-- C5 witness: the theorem applied at concrete inputs and at a concrete reachable state. -/
theorem c5_witness :
    submit_image_record 100 stateA 99 2 hashA .Camera 0 (some hashB) nameA
      = .error .ParentHashNotFound ∧
    submit_image_record 100 genesisState 12345 1 hashA .Camera 0 (some hashA) nameA
      = .error .ParentHashNotFound ∧
    storeChainOk stateA.imageRecords :=
  ⟨(c5_parent_check_order.1 100 99 2 0 stateA hashA hashB nameA hashA hashB .Camera
      (by decide) (by decide) (by decide) (by decide) (by decide)).1,
   c5_parent_check_order.2.1 100 12345 1 0 genesisState hashA nameA hashA .Camera
      (by decide) (by decide) (by decide),
   (c5_parent_check_order.2.2 100 stateA
      (@Reachable.submitRecord 100 genesisState stateA 12345 1 0 hashA .Camera none nameA
        Reachable.genesis (by decide))).1⟩

/-- The registry invariant only depends on the authority registry and the next-id counter. -/
theorem RegistryInv_congr {s1 s2 : PalletState}
    (hreg : s2.authorityRegistry = s1.authorityRegistry)
    (hnext : s2.nextAuthorityId = s1.nextAuthorityId) (h : RegistryInv s1) :
    RegistryInv s2 := by
  unfold RegistryInv get_authority_name at h ⊢
  rw [hreg, hnext]
  exact h

/-- A successful registration either leaves the registry untouched (name found) or prepends the fresh id under the capacity guard and advances the counter by one. -/
theorem register_or_get_authority_registry {maxLen : Nat} {s s1 : PalletState} {name : Bytes}
    {id : Nat} (h : register_or_get_authority maxLen s name = .ok (id, s1)) :
    (s1.authorityRegistry = s.authorityRegistry ∧ s1.nextAuthorityId = s.nextAuthorityId) ∨
    (s.authorityRegistry.find? (fun p => p.2 == name) = none ∧ id = s.nextAuthorityId ∧
      s.nextAuthorityId < 65535 ∧
      s1.authorityRegistry = (s.nextAuthorityId, name) :: s.authorityRegistry ∧
      s1.nextAuthorityId = s.nextAuthorityId + 1) := by
  unfold register_or_get_authority at h
  split at h
  · split at h
    · have h' := Except.ok.inj h
      rw [Prod.mk.injEq] at h'
      exact Or.inl (by rw [← h'.2]; exact ⟨rfl, rfl⟩)
    · rename_i hfind
      split at h
      · rename_i hcap
        have h' := Except.ok.inj h
        rw [Prod.mk.injEq] at h'
        refine Or.inr ⟨hfind, h'.1.symm, hcap, ?_, ?_⟩
        · rw [← h'.2]
        · rw [← h'.2]
      · exact absurd h (by simp)
  · exact absurd h (by simp)

/-- Lookup in a registry with a prepended entry. -/
theorem lookupName_cons {reg : List (Nat × Bytes)} {nid id : Nat} {name : Bytes} :
    (((nid, name) :: reg).find? (fun p => p.1 == id)).map Prod.snd =
      if nid = id then some name
      else (reg.find? (fun p => p.1 == id)).map Prod.snd := by
  by_cases h : nid = id
  · subst h
    rw [List.find?_cons_of_pos _ (by simp), if_pos rfl]
    rfl
  · rw [List.find?_cons_of_neg _ (by simp [h]), if_neg h]

/-- A successful name lookup comes from an entry of the registry. -/
theorem get_authority_name_mem {s : PalletState} {id : Nat} {n : Bytes}
    (h : get_authority_name s id = some n) : ∃ q ∈ s.authorityRegistry, q.2 = n := by
  unfold get_authority_name at h
  cases hf : s.authorityRegistry.find? (fun p => p.1 == id) with
  | none => rw [hf] at h; exact absurd h (by simp)
  | some q =>
    rw [hf] at h
    exact ⟨q, List.mem_of_find?_eq_some hf, by simpa using h⟩

/-- Authority registration preserves the registry invariant. -/
theorem RegistryInv_register {maxLen : Nat} {s s1 : PalletState} {name : Bytes} {id : Nat}
    (h : register_or_get_authority maxLen s name = .ok (id, s1)) (hs : RegistryInv s) :
    RegistryInv s1 := by
  rcases register_or_get_authority_registry h with ⟨h1, h2⟩ | ⟨hfind, hid, hcap, hreg, hnext⟩
  · exact RegistryInv_congr h1 h2 hs
  · obtain ⟨hiff, hbound, hinj⟩ := hs
    have hlookup : ∀ j : Nat, get_authority_name s1 j =
        if s.nextAuthorityId = j then some name else get_authority_name s j := by
      intro j
      unfold get_authority_name
      rw [hreg, lookupName_cons]
    have hnotin : ∀ q ∈ s.authorityRegistry, ¬ q.2 = name := by
      intro q hq
      have hnone := List.find?_eq_none.mp hfind q hq
      simpa using hnone
    refine ⟨?_, by omega, ?_⟩
    · intro j
      rw [hlookup j, hnext]
      by_cases hj : s.nextAuthorityId = j
      · rw [if_pos hj]
        simp
        omega
      · rw [if_neg hj]
        rw [hiff j]
        omega
    · intro id1 id2 n1 n2 h1 h2 hne
      rw [hlookup id1] at h1
      rw [hlookup id2] at h2
      by_cases he1 : s.nextAuthorityId = id1
      · rw [if_pos he1] at h1
        have hn1 : n1 = name := (Option.some.inj h1).symm
        by_cases he2 : s.nextAuthorityId = id2
        · exact absurd (he1.symm.trans he2) hne
        · rw [if_neg he2] at h2
          obtain ⟨q, hq, hq2⟩ := get_authority_name_mem h2
          rw [hn1]
          intro heq
          exact hnotin q hq (hq2.trans heq.symm)
      · rw [if_neg he1] at h1
        by_cases he2 : s.nextAuthorityId = id2
        · rw [if_pos he2] at h2
          have hn2 : n2 = name := (Option.some.inj h2).symm
          obtain ⟨q, hq, hq1⟩ := get_authority_name_mem h1
          rw [hn2]
          intro heq
          exact hnotin q hq (hq1.trans heq)
        · rw [if_neg he2] at h2
          exact hinj id1 id2 n1 n2 h1 h2 hne

/-- The batch loop body preserves the registry invariant. -/
theorem RegistryInv_batchItemStep {maxLen ts bn : Nat} {s s2 : PalletState} {item : BatchItem}
    (h : batchItemStep maxLen ts bn s item = .ok s2) (hs : RegistryInv s) : RegistryInv s2 := by
  obtain ⟨H, pr, id, s1, _, _, _, _, hreg, hs2⟩ := batchItemStep_ok h
  subst hs2
  have hres := RegistryInv_register hreg hs
  exact RegistryInv_congr rfl rfl hres

/-- Single-record submission preserves the registry invariant. -/
theorem RegistryInv_submit_record {maxLen ts bn ml : Nat} {s s2 : PalletState} {ih an : Bytes}
    {sty : SubmissionType} {p : Option Bytes}
    (h : submit_image_record maxLen s ts bn ih sty ml p an = .ok s2) (hs : RegistryInv s) :
    RegistryInv s2 := by
  obtain ⟨H, pr, id, s1, _, _, _, _, hreg, hs2⟩ := submit_image_record_ok h
  subst hs2
  have hres := RegistryInv_register hreg hs
  exact RegistryInv_congr rfl rfl hres

/-- The batch loop preserves the registry invariant. -/
theorem RegistryInv_processBatchItems : ∀ (items : List BatchItem) {maxLen ts bn : Nat}
    {s s2 : PalletState}, processBatchItems maxLen ts bn s items = .ok s2 →
    RegistryInv s → RegistryInv s2
  | [], _, _, _, s, s2, h, hs => by
    have hss : s = s2 := Except.ok.inj h
    subst hss
    exact hs
  | item :: rest, maxLen, ts, bn, s, s2, h, hs => by
    rw [processBatchItems] at h
    cases hstep : batchItemStep maxLen ts bn s item with
    | error e => rw [hstep] at h; exact absurd h (by simp)
    | ok sa =>
      rw [hstep] at h
      exact RegistryInv_processBatchItems rest h (RegistryInv_batchItemStep hstep hs)

/-- Batch submission preserves the registry invariant. -/
theorem RegistryInv_submit_batch {maxLen ts bn : Nat} {s s2 : PalletState}
    {items : List BatchItem} (h : submit_image_batch maxLen s ts bn items = .ok s2)
    (hs : RegistryInv s) : RegistryInv s2 := by
  unfold submit_image_batch at h
  split at h
  · exact absurd h (by simp)
  · split at h
    · split at h
      · rename_i s1 hloop
        have hs2 := (Except.ok.inj h).symm
        subst hs2
        have hres := RegistryInv_processBatchItems items hloop hs
        exact RegistryInv_congr rfl rfl hres
      · exact absurd h (by simp)
    · exact absurd h (by simp)

/-- The registry invariant holds at genesis. -/
theorem RegistryInv_genesis : RegistryInv genesisState := by
  refine ⟨?_, by decide, ?_⟩
  · intro id
    simp [get_authority_name, genesisState]
  · intro id1 id2 n1 n2 h1
    simp [get_authority_name, genesisState] at h1

/-- Every reachable state satisfies the registry invariant. -/
theorem reachable_RegistryInv {maxLen : Nat} {s : PalletState} (h : Reachable maxLen s) :
    RegistryInv s := by
  induction h with
  | genesis => exact RegistryInv_genesis
  | submitRecord _ hok ih => exact RegistryInv_submit_record hok ih
  | submitBatch _ hok ih => exact RegistryInv_submit_batch hok ih

/-- C10: in every reachable state, `get_authority_name` returns a name exactly for the ids below `next_authority_id`, that counter never exceeds 65535, every assigned id is strictly below 65535 (so id 65535 is never assigned), and distinct ids map to distinct names. -/
theorem c10_registry_density (maxLen : Nat) (s : PalletState) (h : Reachable maxLen s) :
    (∀ id : Nat, (get_authority_name s id).isSome = true ↔ id < s.nextAuthorityId) ∧
    s.nextAuthorityId ≤ 65535 ∧
    (∀ id : Nat, (get_authority_name s id).isSome = true → id < 65535) ∧
    get_authority_name s 65535 = none ∧
    (∀ (id1 id2 : Nat) (n1 n2 : Bytes), get_authority_name s id1 = some n1 →
      get_authority_name s id2 = some n2 → id1 ≠ id2 → n1 ≠ n2) := by
  obtain ⟨hiff, hbound, hinj⟩ := reachable_RegistryInv h
  refine ⟨hiff, hbound, ?_, ?_, hinj⟩
  · intro id hid
    have := (hiff id).mp hid
    omega
  · cases hn : get_authority_name s 65535 with
    | none => rfl
    | some n =>
      have hsome : (get_authority_name s 65535).isSome = true := by rw [hn]; rfl
      have := (hiff 65535).mp hsome
      omega

/-- C10 witness: the theorem applied at the reachable state holding one registered authority. -/
theorem c10_witness :
    get_authority_name stateA 65535 = none ∧
    (∀ id : Nat, (get_authority_name stateA id).isSome = true → id < 65535) :=
  ⟨(c10_registry_density 100 stateA
      (@Reachable.submitRecord 100 genesisState stateA 12345 1 0 hashA .Camera none nameA
        Reachable.genesis (by decide))).2.2.2.1,
   (c10_registry_density 100 stateA
      (@Reachable.submitRecord 100 genesisState stateA 12345 1 0 hashA .Camera none nameA
        Reachable.genesis (by decide))).2.2.1⟩

end Birthmark
